import Mathlib

/-!
Verification of the hacker-chat server handlers (src/server/src/handlers) against
the natural-language specification.  The relational store (PostgreSQL accessed
through drizzle-orm) is shallowly embedded as lists of rows; each handler is
translated into a pure function over that store, returning the new store
together with either a thrown error (`Except.error`) or its result value.
External collaborators (the HTTP fetch used by the link unfurler, WHATWG URL
parsing, and the LinkUnfurler itself where it is a collaborator of
`sendMessage`) are passed in as oracle parameters, as the spec treats them as
external collaborators.  Timestamps are modelled as natural numbers; each
operation runs at the store's current clock `now`.
-/

set_option maxHeartbeats 1000000

namespace HackerChat

/-- member_role enum from db/schema.ts; the declaration order owner, admin,
member is the PostgreSQL enum comparison order used by ORDER BY. -/
inductive Role where
  | owner
  | admin
  | member
deriving DecidableEq, Repr

/-- message_type enum from db/schema.ts. -/
inductive MsgType where
  | text
  | image
  | link
deriving DecidableEq, Repr

/-- Row of usersTable (db/schema.ts). -/
structure User where
  id : Nat
  username : String
  email : String
  password_hash : String
  avatar_url : Option String
  is_online : Bool
  last_seen : Option Nat
  created_at : Nat
  updated_at : Nat
deriving DecidableEq, Repr

/-- Row of chatChannelsTable (db/schema.ts). -/
structure Channel where
  id : Nat
  name : String
  description : Option String
  is_private : Bool
  created_by : Nat
  created_at : Nat
  updated_at : Nat
deriving DecidableEq, Repr

/-- Row of channelMembersTable (db/schema.ts). -/
structure Membership where
  id : Nat
  channel_id : Nat
  user_id : Nat
  role : Role
  joined_at : Nat
deriving DecidableEq, Repr

/-- Row of chatMessagesTable (db/schema.ts); link_preview is JSON stored as
text, nullable. -/
structure Message where
  id : Nat
  channel_id : Nat
  user_id : Nat
  content : String
  message_type : MsgType
  image_url : Option String
  link_preview : Option String
  reply_to_message_id : Option Nat
  is_edited : Bool
  created_at : Nat
  updated_at : Nat
deriving DecidableEq, Repr

/-- The relational store: one list of rows per table, the serial-id counters,
and the transaction clock used for defaultNow() timestamps. -/
structure Store where
  users : List User
  channels : List Channel
  members : List Membership
  messages : List Message
  nextChannelId : Nat
  nextMemberId : Nat
  nextMessageId : Nat
  now : Nat
deriving DecidableEq, Repr

/-- publicUserSchema projection (schema.ts). -/
structure PublicUser where
  id : Nat
  username : String
  avatar_url : Option String
  is_online : Bool
  last_seen : Option Nat
deriving DecidableEq, Repr

def publicProfile (u : User) : PublicUser :=
  ⟨u.id, u.username, u.avatar_url, u.is_online, u.last_seen⟩

/-- The `{ success, message }` result payload used by join/leave/add-to-chat. -/
structure ResultMsg where
  success : Bool
  message : String
deriving DecidableEq, Repr

/-- PostgreSQL compares enum columns by declaration order; member_role is
declared owner, admin, member, so ORDER BY role ascending ranks owner first,
then admin, then member. -/
def roleRank : Role → Nat
  | Role.owner => 0
  | Role.admin => 1
  | Role.member => 2

/-- The sort key of ORDER BY role, joined_at in leaveChannel. -/
def memberKey (m : Membership) : Nat × Nat := (roleRank m.role, m.joined_at)

/-- Strict lexicographic comparison on (role rank, joined_at). -/
def keyLt (a b : Nat × Nat) : Bool := a.1 < b.1 || (a.1 = b.1 && a.2 < b.2)

/-- Weak lexicographic order on (role rank, joined_at). -/
def lexLe (a b : Nat × Nat) : Prop := a.1 < b.1 ∨ (a.1 = b.1 ∧ a.2 ≤ b.2)

/-- ORDER BY role, joined_at LIMIT 1: the row minimal for the lexicographic
key; on ties the earlier row in table order is kept (SQL leaves tie order
unspecified; the embedding fixes table order). -/
def pickMin : List Membership → Option Membership
  | [] => none
  | m :: ms =>
    match pickMin ms with
    | none => some m
    | some m' => if keyLt (memberKey m') (memberKey m) then some m' else some m

/-- joinChannel from handlers/channels.ts (lines 224-289): raises when the
user does not exist; otherwise returns a ResultMsg, inserting a member-role
row only on the success path. -/
def joinChannel (s : Store) (channelId userId : Nat) :
    Store × Except String ResultMsg :=
  let user := s.users.filter (fun u => u.id = userId)
  if user.length = 0 then
    (s, Except.error "User not found")
  else
    let channel := s.channels.filter (fun c => c.id = channelId)
    match channel with
    | [] => (s, Except.ok ⟨false, "Channel not found"⟩)
    | ch :: _ =>
      if ch.is_private then
        (s, Except.ok ⟨false, "Cannot join private channel without invitation"⟩)
      else
        let existingMembership := s.members.filter
          (fun m => m.channel_id = channelId && m.user_id = userId)
        if existingMembership.length > 0 then
          (s, Except.ok ⟨false, "Already a member of this channel"⟩)
        else
          let row : Membership :=
            ⟨s.nextMemberId, channelId, userId, Role.member, s.now⟩
          ({ s with members := s.members ++ [row],
                    nextMemberId := s.nextMemberId + 1 },
           Except.ok ⟨true, "Successfully joined channel"⟩)

/-- Claim C3: JoinChannel raises when the joining user does not exist;
otherwise it returns success=false with the respective message when the
channel is absent, private, or the membership already exists (inserting
nothing in those three cases), and otherwise inserts exactly one member-role
row and returns success=true; a repeated join by the same user never creates
a duplicate row. -/
theorem joinChannel_spec (s : Store) (channelId userId : Nat) :
    ((∀ u ∈ s.users, u.id ≠ userId) →
      joinChannel s channelId userId = (s, Except.error "User not found"))
    ∧ (∀ u ∈ s.users, u.id = userId →
        ((∀ c ∈ s.channels, c.id ≠ channelId) →
          joinChannel s channelId userId =
            (s, Except.ok ⟨false, "Channel not found"⟩))
        ∧ (∀ ch, (s.channels.filter (fun c => c.id = channelId)).head? = some ch →
            (ch.is_private = true →
              joinChannel s channelId userId =
                (s, Except.ok ⟨false, "Cannot join private channel without invitation"⟩))
            ∧ (ch.is_private = false →
              ((∃ m ∈ s.members, m.channel_id = channelId ∧ m.user_id = userId) →
                joinChannel s channelId userId =
                  (s, Except.ok ⟨false, "Already a member of this channel"⟩))
              ∧ ((∀ m ∈ s.members, ¬(m.channel_id = channelId ∧ m.user_id = userId)) →
                ∃ s₂,
                  joinChannel s channelId userId =
                    (s₂, Except.ok ⟨true, "Successfully joined channel"⟩)
                  ∧ s₂.members = s.members ++
                      [⟨s.nextMemberId, channelId, userId, Role.member, s.now⟩]
                  ∧ s₂.users = s.users ∧ s₂.channels = s.channels
                  ∧ s₂.messages = s.messages
                  ∧ joinChannel s₂ channelId userId =
                      (s₂, Except.ok ⟨false, "Already a member of this channel"⟩))))) := by
  constructor
  · intro hnou
    have h0 : s.users.filter (fun u => u.id = userId) = [] := by
      apply List.filter_eq_nil_iff.mpr
      intro u hu
      simpa using hnou u hu
    simp [joinChannel, h0]
  · intro u hu huid
    have hlen : (s.users.filter (fun u => u.id = userId)).length ≠ 0 := by
      have : u ∈ s.users.filter (fun u => u.id = userId) := by
        simp [List.mem_filter, hu, huid]
      intro hc
      rw [List.length_eq_zero.mp hc] at this
      exact absurd this (List.not_mem_nil u)
    refine ⟨?_, ?_⟩
    · intro hnoc
      have h1 : s.channels.filter (fun c => c.id = channelId) = [] := by
        apply List.filter_eq_nil_iff.mpr
        intro c hc
        simpa using hnoc c hc
      simp [joinChannel, hlen, h1]
    · intro ch hch
      obtain ⟨l, hl⟩ : ∃ l, s.channels.filter (fun c => c.id = channelId) = ch :: l := by
        cases hfe : s.channels.filter (fun c => c.id = channelId) with
        | nil => rw [hfe] at hch; simp at hch
        | cons a l =>
          rw [hfe] at hch
          simp at hch
          exact ⟨l, by rw [hch]⟩
      refine ⟨?_, ?_⟩
      · intro hpriv
        simp [joinChannel, hlen, hl, hpriv]
      · intro hpub
        refine ⟨?_, ?_⟩
        · intro ⟨m, hm, hmc, hmu⟩
          have hmem : m ∈ s.members.filter
              (fun m => m.channel_id = channelId && m.user_id = userId) := by
            simp [List.mem_filter, hm, hmc, hmu]
          have hpos : (s.members.filter
              (fun m => m.channel_id = channelId && m.user_id = userId)).length > 0 :=
            List.length_pos.mpr (fun he => by rw [he] at hmem; exact absurd hmem (List.not_mem_nil m))
          simp [joinChannel, hlen, hl, hpub, hpos]
        · intro hnom
          have hfil : s.members.filter
              (fun m => m.channel_id = channelId && m.user_id = userId) = [] := by
            apply List.filter_eq_nil_iff.mpr
            intro m hm
            have := hnom m hm
            simp only [Bool.and_eq_true, decide_eq_true_eq]
            tauto
          refine ⟨⟨s.users, s.channels,
              s.members ++ [⟨s.nextMemberId, channelId, userId, Role.member, s.now⟩],
              s.messages, s.nextChannelId, s.nextMemberId + 1, s.nextMessageId, s.now⟩,
              ?_, rfl, rfl, rfl, rfl, ?_⟩
          · simp [joinChannel, hlen, hl, hpub, hfil]
          · have hrow : (⟨s.nextMemberId, channelId, userId, Role.member, s.now⟩ : Membership) ∈
                (s.members ++ [⟨s.nextMemberId, channelId, userId, Role.member, s.now⟩]) := by
              simp
            have hpos2 : ((s.members ++ [(⟨s.nextMemberId, channelId, userId, Role.member, s.now⟩ : Membership)]).filter
                (fun m => m.channel_id = channelId && m.user_id = userId)).length > 0 := by
              apply List.length_pos.mpr
              intro he
              have : (⟨s.nextMemberId, channelId, userId, Role.member, s.now⟩ : Membership) ∈
                  (s.members ++ [(⟨s.nextMemberId, channelId, userId, Role.member, s.now⟩ : Membership)]).filter
                    (fun m => m.channel_id = channelId && m.user_id = userId) := by
                simp [List.mem_filter]
              rw [he] at this
              exact absurd this (List.not_mem_nil _)
            simp [joinChannel, hlen, hl, hpub, hpos2]

/-- leaveChannel from handlers/channels.ts (lines 291-356): non-members get a
failure ResultMsg; a leaving owner first transfers ownership to the ORDER BY
role, joined_at LIMIT 1 row among the other members of the channel (when any
exist), then the leaver's membership rows are deleted. -/
def leaveChannel (s : Store) (channelId userId : Nat) : Store × ResultMsg :=
  let membership := s.members.filter
    (fun m => m.channel_id = channelId && m.user_id = userId)
  match membership with
  | [] => (s, ⟨false, "Not a member of this channel"⟩)
  | mem :: _ =>
    let s1 :=
      if mem.role = Role.owner then
        let allMembers := s.members.filter (fun m => m.channel_id = channelId)
        if allMembers.length > 1 then
          let remaining := s.members.filter
            (fun m => m.channel_id = channelId && !(m.user_id = userId))
          match pickMin remaining with
          | some nxt =>
            { s with members := s.members.map (fun m => if m.id = nxt.id then { m with role := Role.owner } else m) }
          | none => s
        else s
      else s
    ({ s1 with members := s1.members.filter (fun m => !(m.channel_id = channelId && m.user_id = userId)) },
     ⟨true, "Successfully left channel"⟩)

theorem pickMin_mem : ∀ (l : List Membership) (m : Membership),
    pickMin l = some m → m ∈ l
  | [], m, h => by simp [pickMin] at h
  | a :: l, m, h => by
    simp only [pickMin] at h
    cases hp : pickMin l with
    | none => rw [hp] at h; simp at h; simp [h]
    | some m' =>
      rw [hp] at h
      simp only at h
      by_cases hk : keyLt (memberKey m') (memberKey a) = true
      · rw [if_pos hk] at h
        simp at h
        subst h
        exact List.mem_cons_of_mem a (pickMin_mem l _ hp)
      · rw [if_neg hk] at h
        simp at h
        simp [h]

theorem lexLe_refl (a : Nat × Nat) : lexLe a a := Or.inr ⟨rfl, Nat.le_refl _⟩

theorem lexLe_trans {a b c : Nat × Nat} (h1 : lexLe a b) (h2 : lexLe b c) :
    lexLe a c := by
  rcases a with ⟨a1, a2⟩; rcases b with ⟨b1, b2⟩; rcases c with ⟨c1, c2⟩
  simp only [lexLe] at h1 h2 ⊢
  omega

theorem keyLt_true_lexLe {a b : Nat × Nat} (h : keyLt a b = true) : lexLe a b := by
  rcases a with ⟨a1, a2⟩; rcases b with ⟨b1, b2⟩
  simp only [keyLt, Bool.or_eq_true, Bool.and_eq_true, decide_eq_true_eq] at h
  simp only [lexLe]
  omega

theorem keyLt_false_lexLe {a b : Nat × Nat} (h : keyLt a b = false) : lexLe b a := by
  rcases a with ⟨a1, a2⟩; rcases b with ⟨b1, b2⟩
  simp only [keyLt, Bool.or_eq_false_iff, Bool.and_eq_false_iff,
    decide_eq_false_iff_not, decide_eq_true_eq] at h
  simp only [lexLe]
  rcases h with ⟨h1, h2⟩
  rcases h2 with h2 | h2 <;> omega

theorem lexLe_ne_keyLt {a b : Nat × Nat} (h : lexLe a b) (hne : b ≠ a) :
    keyLt a b = true := by
  rcases a with ⟨a1, a2⟩; rcases b with ⟨b1, b2⟩
  simp only [lexLe] at h
  simp only [keyLt, Bool.or_eq_true, Bool.and_eq_true, decide_eq_true_eq]
  have : ¬(b1 = a1 ∧ b2 = a2) := by
    intro ⟨x, y⟩; exact hne (by rw [x, y])
  omega

theorem pickMin_eq_none : ∀ (l : List Membership), pickMin l = none → l = []
  | [], _ => rfl
  | a :: l, h => by
    simp only [pickMin] at h
    cases hp : pickMin l with
    | none => rw [hp] at h; simp at h
    | some x => rw [hp] at h; simp only at h; split at h <;> simp at h

theorem pickMin_min : ∀ (l : List Membership) (m : Membership),
    pickMin l = some m → ∀ m' ∈ l, lexLe (memberKey m) (memberKey m')
  | [], m, h => by simp [pickMin] at h
  | a :: l, m, h => by
    simp only [pickMin] at h
    cases hp : pickMin l with
    | none =>
      rw [hp] at h
      simp at h
      have hl : l = [] := pickMin_eq_none l hp
      subst hl
      intro m' hm'
      simp at hm'
      subst hm'
      subst h
      exact lexLe_refl _
    | some m' =>
      rw [hp] at h
      simp only at h
      by_cases hk : keyLt (memberKey m') (memberKey a) = true
      · rw [if_pos hk] at h
        simp at h
        subst h
        intro x hx
        rcases List.mem_cons.mp hx with hx | hx
        · subst hx
          exact keyLt_true_lexLe hk
        · exact pickMin_min l _ hp x hx
      · rw [if_neg hk] at h
        simp at h
        subst h
        intro x hx
        rcases List.mem_cons.mp hx with hx | hx
        · subst hx; exact lexLe_refl _
        · exact lexLe_trans (keyLt_false_lexLe (Bool.eq_false_iff.mpr hk))
            (pickMin_min l _ hp x hx)

theorem head?_some_of_ne_nil {α : Type} {l : List α} (h : l ≠ []) :
    ∃ a, l.head? = some a := by
  cases l with
  | nil => exact absurd rfl h
  | cons a l => exact ⟨a, rfl⟩

theorem mem_of_head?_some {α : Type} {l : List α} {a : α} (h : l.head? = some a) :
    a ∈ l := by
  cases l with
  | nil => simp at h
  | cons b l => simp at h; simp [h]

theorem two_mem_one_lt_length {α : Type} {l : List α} {a b : α}
    (ha : a ∈ l) (hb : b ∈ l) (hne : a ≠ b) : 1 < l.length := by
  induction l with
  | nil => exact absurd ha (List.not_mem_nil a)
  | cons c l ih =>
    rcases List.mem_cons.mp ha with h1 | h1
    · rcases List.mem_cons.mp hb with h2 | h2
      · exact absurd (h1.trans h2.symm) hne
      · have := List.length_pos_of_mem h2
        simp only [List.length_cons]
        omega
    · rcases List.mem_cons.mp hb with h2 | h2
      · have := List.length_pos_of_mem h1
        simp only [List.length_cons]
        omega
      · have := ih h1 h2
        simp only [List.length_cons]
        omega

/-- Claim C4: LeaveChannel promotes, when the leaver is owner and other
members remain, exactly the remaining member minimal by role rank (admin
before member, per the enum order) and then by earliest joined timestamp,
then deletes the leaver's membership and returns success=true; a sole owner
leaves without promotion; a non-member gets success=false and no state
change. -/
theorem leaveChannel_spec (s : Store) (channelId userId : Nat) :
    ((∀ m ∈ s.members, ¬(m.channel_id = channelId ∧ m.user_id = userId)) →
      leaveChannel s channelId userId = (s, ⟨false, "Not a member of this channel"⟩))
    ∧ (∀ mem,
        (s.members.filter (fun m => m.channel_id = channelId && m.user_id = userId)).head?
          = some mem →
        mem.role = Role.owner →
        ((s.members.filter (fun m => m.channel_id = channelId && !(m.user_id = userId))) ≠ [] →
          ∃ nxt,
            nxt ∈ s.members.filter (fun m => m.channel_id = channelId && !(m.user_id = userId))
            ∧ (∀ m' ∈ s.members.filter (fun m => m.channel_id = channelId && !(m.user_id = userId)),
                lexLe (memberKey nxt) (memberKey m'))
            ∧ (∀ m' ∈ s.members.filter (fun m => m.channel_id = channelId && !(m.user_id = userId)),
                memberKey m' ≠ memberKey nxt → keyLt (memberKey nxt) (memberKey m') = true)
            ∧ leaveChannel s channelId userId =
                ({ s with members := (s.members.map (fun m => if m.id = nxt.id then { m with role := Role.owner } else m)).filter (fun m => !(m.channel_id = channelId && m.user_id = userId)) },
                 ⟨true, "Successfully left channel"⟩))
        ∧ ((s.members.filter (fun m => m.channel_id = channelId && !(m.user_id = userId))) = [] →
          leaveChannel s channelId userId =
            ({ s with members := s.members.filter (fun m => !(m.channel_id = channelId && m.user_id = userId)) },
             ⟨true, "Successfully left channel"⟩))) := by
  constructor
  · intro hnom
    have hfil : s.members.filter
        (fun m => m.channel_id = channelId && m.user_id = userId) = [] := by
      apply List.filter_eq_nil_iff.mpr
      intro m hm
      have := hnom m hm
      simp only [Bool.and_eq_true, decide_eq_true_eq]
      tauto
    simp [leaveChannel, hfil]
  · intro mem hmem hrole
    obtain ⟨l, hl⟩ : ∃ l, s.members.filter
        (fun m => m.channel_id = channelId && m.user_id = userId) = mem :: l := by
      cases hfe : s.members.filter
          (fun m => m.channel_id = channelId && m.user_id = userId) with
      | nil => rw [hfe] at hmem; simp at hmem
      | cons a l =>
        rw [hfe] at hmem
        simp at hmem
        exact ⟨l, by rw [hmem]⟩
    constructor
    · intro hrem
      obtain ⟨r, hr⟩ := List.exists_mem_of_ne_nil _ hrem
      -- the channel has more than one member
      have hmemch : mem ∈ s.members.filter (fun m => m.channel_id = channelId) := by
        have h1 := List.mem_filter.mp (hl ▸ List.mem_cons_self mem l)
        exact List.mem_filter.mpr ⟨h1.1, by
          have := h1.2
          simp only [Bool.and_eq_true, decide_eq_true_eq] at this
          simp [this.1]⟩
      have hrch : r ∈ s.members.filter (fun m => m.channel_id = channelId) := by
        have h1 := List.mem_filter.mp hr
        exact List.mem_filter.mpr ⟨h1.1, by
          have := h1.2
          simp only [Bool.and_eq_true, decide_eq_true_eq] at this
          simp [this.1]⟩
      have hne : mem ≠ r := by
        intro he
        have h1 := (List.mem_filter.mp (hl ▸ List.mem_cons_self mem l)).2
        have h2 := (List.mem_filter.mp hr).2
        simp only [Bool.and_eq_true, Bool.not_eq_eq_eq_not, Bool.not_true,
          decide_eq_true_eq, decide_eq_false_iff_not] at h1 h2
        rw [he] at h1
        exact h2.2 h1.2
      have hgt : (s.members.filter (fun m => m.channel_id = channelId)).length > 1 :=
        two_mem_one_lt_length hmemch hrch hne
      obtain ⟨nxt, hnxt⟩ : ∃ nxt, pickMin (s.members.filter
          (fun m => m.channel_id = channelId && !(m.user_id = userId))) = some nxt := by
        cases hp : pickMin (s.members.filter
            (fun m => m.channel_id = channelId && !(m.user_id = userId))) with
        | none => exact absurd (pickMin_eq_none _ hp) hrem
        | some x => exact ⟨x, rfl⟩
      refine ⟨nxt, pickMin_mem _ _ hnxt, pickMin_min _ _ hnxt, ?_, ?_⟩
      · intro m' hm' hkne
        exact lexLe_ne_keyLt (pickMin_min _ _ hnxt m' hm') hkne
      · simp only [leaveChannel, hl, hrole]
        simp [hgt, hnxt]
    · intro hrem
      by_cases hgt : (s.members.filter (fun m => m.channel_id = channelId)).length > 1
      · simp only [leaveChannel, hl, hrole]
        simp [hgt, hrem, pickMin]
      · simp only [leaveChannel, hl, hrole]
        simp [hgt]

/-- Example rows used to instantiate the claim theorems. -/
def exUserA : User := ⟨1, "alice", "alice@example.com", "h1", none, false, none, 0, 0⟩

def exUserB : User := ⟨2, "bob", "bob@example.com", "h2", none, false, none, 0, 0⟩

def exUserC : User := ⟨3, "carol", "carol@example.com", "h3", none, false, none, 0, 0⟩

def exChanPub : Channel := ⟨1, "general", none, false, 1, 0, 0⟩

def s3ex : Store := ⟨[exUserA], [exChanPub], [], [], 2, 1, 1, 5⟩

theorem joinChannel_spec_witness :
    ∃ s₂, joinChannel s3ex 1 1 = (s₂, Except.ok ⟨true, "Successfully joined channel"⟩)
      ∧ s₂.members = [⟨1, 1, 1, Role.member, 5⟩]
      ∧ joinChannel s₂ 1 1 = (s₂, Except.ok ⟨false, "Already a member of this channel"⟩) := by
  obtain ⟨s₂, h1, h2, _, _, _, h6⟩ :=
    ((((joinChannel_spec s3ex 1 1).2 exUserA (by decide) (by decide)).2
      exChanPub (by decide)).2 (by decide)).2 (by decide)
  exact ⟨s₂, h1, by rw [h2]; decide, h6⟩

def m4owner : Membership := ⟨1, 1, 1, Role.owner, 0⟩

def m4member : Membership := ⟨2, 1, 3, Role.member, 5⟩

def m4admin : Membership := ⟨3, 1, 2, Role.admin, 10⟩

def s4ex : Store :=
  ⟨[exUserA, exUserB, exUserC], [exChanPub], [m4owner, m4member, m4admin], [], 2, 4, 1, 20⟩

theorem leaveChannel_spec_witness :
    ∃ nxt, nxt ∈ s4ex.members.filter (fun m => m.channel_id = 1 && !(m.user_id = 1))
      ∧ (∀ m' ∈ s4ex.members.filter (fun m => m.channel_id = 1 && !(m.user_id = 1)),
          lexLe (memberKey nxt) (memberKey m'))
      ∧ leaveChannel s4ex 1 1 =
          ({ s4ex with members := (s4ex.members.map (fun m => if m.id = nxt.id then { m with role := Role.owner } else m)).filter (fun m => !(m.channel_id = 1 && m.user_id = 1)) },
           ⟨true, "Successfully left channel"⟩) := by
  obtain ⟨nxt, h1, h2, _, h4⟩ :=
    ((leaveChannel_spec s4ex 1 1).2 m4owner (by decide) (by decide)).1 (by decide)
  exact ⟨nxt, h1, h2, h4⟩

/-- createChannelInputSchema (schema.ts): name, optional description, privacy
flag and optional member id list for private chats. -/
structure CreateChannelInput where
  name : String
  description : Option String
  is_private : Bool
  member_user_ids : Option (List Nat)
deriving DecidableEq, Repr

/-- Models the JS `x || null` idiom on an optional string: the empty string is
falsy and becomes null. -/
def strOrNull : Option String → Option String
  | some str => if str = "" then none else some str
  | none => none

/-- createChannel from handlers/channels.ts (lines 6-76): verifies the
creator, inserts the channel row and the creator's owner membership; only
when the channel is private does it validate and insert the supplied member
ids (skipping the creator's own id and nonexistent users). -/
def createChannel (s : Store) (input : CreateChannelInput) (creatorUserId : Nat) :
    Store × Except String Channel :=
  let creator := s.users.filter (fun u => u.id = creatorUserId)
  if creator.length = 0 then
    (s, Except.error "Creator user not found")
  else
    let newChannel : Channel :=
      ⟨s.nextChannelId, input.name, strOrNull input.description, input.is_private,
        creatorUserId, s.now, s.now⟩
    let s1 := { s with channels := s.channels ++ [newChannel], nextChannelId := s.nextChannelId + 1 }
    let ownerRow : Membership := ⟨s1.nextMemberId, newChannel.id, creatorUserId, Role.owner, s1.now⟩
    let s2 := { s1 with members := s1.members ++ [ownerRow], nextMemberId := s1.nextMemberId + 1 }
    let s3 :=
      if input.is_private then
        match input.member_user_ids with
        | some memberIds =>
          if memberIds.length > 0 then
            let validMemberIds := memberIds.filter
              (fun uid => !(uid = creatorUserId) && (s.users.filter (fun u => u.id = uid)).length > 0)
            if validMemberIds.length > 0 then
              let rows := validMemberIds.enum.map
                (fun p => (⟨s2.nextMemberId + p.1, newChannel.id, p.2, Role.member, s2.now⟩ : Membership))
              { s2 with members := s2.members ++ rows, nextMemberId := s2.nextMemberId + rows.length }
            else s2
          else s2
        | none => s2
      else s2
    (s3, Except.ok newChannel)

/-- Claim C10: for a public channel createChannel inserts exactly one
membership row — the creator as owner — and silently ignores any
member_user_ids supplied, because the member-insertion branch runs only for
private channels. -/
theorem createChannel_public_ignores_member_ids (s : Store) (input : CreateChannelInput)
    (creatorUserId : Nat) (hc : ∃ u ∈ s.users, u.id = creatorUserId)
    (hpub : input.is_private = false) :
    ∃ s₂ ch, createChannel s input creatorUserId = (s₂, Except.ok ch)
      ∧ s₂.members = s.members ++ [⟨s.nextMemberId, s.nextChannelId, creatorUserId, Role.owner, s.now⟩]
      ∧ ch = ⟨s.nextChannelId, input.name, strOrNull input.description, false, creatorUserId, s.now, s.now⟩
      ∧ s₂.channels = s.channels ++ [ch]
      ∧ s₂.users = s.users ∧ s₂.messages = s.messages
      ∧ (∀ ids, createChannel s ⟨input.name, input.description, input.is_private, ids⟩ creatorUserId
          = createChannel s input creatorUserId) := by
  obtain ⟨u, hu, huid⟩ := hc
  have hlen : (s.users.filter (fun v => v.id = creatorUserId)).length ≠ 0 := by
    have : u ∈ s.users.filter (fun v => v.id = creatorUserId) := by
      simp [List.mem_filter, hu, huid]
    intro hcon
    rw [List.length_eq_zero.mp hcon] at this
    exact absurd this (List.not_mem_nil u)
  refine ⟨{ s with channels := s.channels ++ [⟨s.nextChannelId, input.name, strOrNull input.description, input.is_private, creatorUserId, s.now, s.now⟩], nextChannelId := s.nextChannelId + 1, members := s.members ++ [⟨s.nextMemberId, s.nextChannelId, creatorUserId, Role.owner, s.now⟩], nextMemberId := s.nextMemberId + 1 },
    ⟨s.nextChannelId, input.name, strOrNull input.description, input.is_private, creatorUserId, s.now, s.now⟩,
    ?_, rfl, by simp [hpub], rfl, rfl, rfl, ?_⟩
  · simp [createChannel, hlen, hpub]
  · intro ids
    simp [createChannel, hlen, hpub]

theorem createChannel_public_ignores_member_ids_witness :
    ∃ s₂ ch, createChannel s3ex ⟨"offtopic", none, false, some [2, 3, 1]⟩ 1 = (s₂, Except.ok ch)
      ∧ s₂.members = [⟨1, 2, 1, Role.owner, 5⟩] := by
  obtain ⟨s₂, ch, h1, h2, _⟩ :=
    createChannel_public_ignores_member_ids s3ex ⟨"offtopic", none, false, some [2, 3, 1]⟩ 1
      ⟨exUserA, by decide, by decide⟩ rfl
  exact ⟨s₂, ch, h1, by rw [h2]; decide⟩

/-- updateMessageInputSchema (schema.ts). -/
structure UpdateMessageInput where
  message_id : Nat
  content : String
deriving DecidableEq, Repr

/-- The message joined with its author's public profile, as returned by
sendMessage/updateMessage.  The embedding keeps the stored row; the TS code
additionally re-parses the link_preview JSON text it has just stored. -/
structure MessageWithUser where
  msg : Message
  user : Option PublicUser
deriving DecidableEq, Repr

/-- updateMessage from handlers/messages.ts (lines 171-225): the SELECT
filters on message id AND author, so nonexistence and foreign authorship
collapse into the one merged error; the UPDATE then sets content, the edited
flag and the update timestamp on the row with that id. -/
def updateMessage (s : Store) (input : UpdateMessageInput) (userId : Nat) :
    Store × Except String MessageWithUser :=
  let existingMessage := s.messages.filter
    (fun m => m.id = input.message_id && m.user_id = userId)
  if existingMessage.length = 0 then
    (s, Except.error "Message not found or user does not have permission to edit")
  else
    let updated := s.messages.map (fun m => if m.id = input.message_id then { m with content := input.content, is_edited := true, updated_at := s.now } else m)
    let s1 := { s with messages := updated }
    let user := (s.users.filter (fun u => u.id = userId)).head?
    match (updated.filter (fun m => m.id = input.message_id)).head? with
    | some msgRow => (s1, Except.ok ⟨msgRow, user.map publicProfile⟩)
    | none => (s1, Except.error "TypeError")

/-- Claim C7: UpdateMessage succeeds exactly when the requester authored the
message, raises the single merged not-found-or-no-permission error otherwise
(store unchanged), and on success rewrites only content, the edited flag and
the update timestamp of that one message, leaving every other field and
every other message unchanged. -/
theorem updateMessage_spec (s : Store) (input : UpdateMessageInput) (userId : Nat) :
    ((∀ m ∈ s.messages, ¬(m.id = input.message_id ∧ m.user_id = userId)) →
      updateMessage s input userId =
        (s, Except.error "Message not found or user does not have permission to edit"))
    ∧ ((∃ m ∈ s.messages, m.id = input.message_id ∧ m.user_id = userId) →
      ∃ s₂ mw, updateMessage s input userId = (s₂, Except.ok mw)
        ∧ s₂.messages = s.messages.map (fun m => if m.id = input.message_id then { m with content := input.content, is_edited := true, updated_at := s.now } else m)
        ∧ s₂.users = s.users ∧ s₂.channels = s.channels ∧ s₂.members = s.members
        ∧ (∀ m ∈ s.messages, m.id ≠ input.message_id → m ∈ s₂.messages)
        ∧ (∀ m ∈ s.messages, m.id = input.message_id →
            ({ m with content := input.content, is_edited := true, updated_at := s.now } : Message) ∈ s₂.messages)
        ∧ mw.msg ∈ s₂.messages ∧ mw.msg.id = input.message_id
        ∧ mw.msg.content = input.content ∧ mw.msg.is_edited = true
        ∧ mw.user = ((s.users.filter (fun u => u.id = userId)).head?).map publicProfile) := by
  constructor
  · intro hnom
    have hfil : s.messages.filter
        (fun m => m.id = input.message_id && m.user_id = userId) = [] := by
      apply List.filter_eq_nil_iff.mpr
      intro m hm
      have := hnom m hm
      simp only [Bool.and_eq_true, decide_eq_true_eq]
      tauto
    simp [updateMessage, hfil]
  · intro ⟨m0, hm0, hid0, huid0⟩
    have hlen : (s.messages.filter
        (fun m => m.id = input.message_id && m.user_id = userId)).length ≠ 0 := by
      have : m0 ∈ s.messages.filter
          (fun m => m.id = input.message_id && m.user_id = userId) := by
        simp [List.mem_filter, hm0, hid0, huid0]
      intro hcon
      rw [List.length_eq_zero.mp hcon] at this
      exact absurd this (List.not_mem_nil m0)
    have hupd : ({ m0 with content := input.content, is_edited := true, updated_at := s.now } : Message)
        ∈ (s.messages.map (fun m => if m.id = input.message_id then { m with content := input.content, is_edited := true, updated_at := s.now } else m)).filter (fun m => m.id = input.message_id) := by
      apply List.mem_filter.mpr
      constructor
      · exact List.mem_map.mpr ⟨m0, hm0, by rw [if_pos hid0]⟩
      · simp [hid0]
    obtain ⟨msgRow, hhead⟩ :=
      head?_some_of_ne_nil (l := (s.messages.map (fun m => if m.id = input.message_id then { m with content := input.content, is_edited := true, updated_at := s.now } else m)).filter (fun m => m.id = input.message_id))
        (fun he => absurd (he ▸ hupd) (List.not_mem_nil _))
    have hrowmem : msgRow ∈ (s.messages.map (fun m => if m.id = input.message_id then { m with content := input.content, is_edited := true, updated_at := s.now } else m)).filter (fun m => m.id = input.message_id) :=
      mem_of_head?_some hhead
    have hrowid : msgRow.id = input.message_id := by
      have := (List.mem_filter.mp hrowmem).2
      simpa using this
    obtain ⟨mold, hmold, hmoldeq⟩ := List.mem_map.mp (List.mem_filter.mp hrowmem).1
    have hmoldid : mold.id = input.message_id := by
      by_contra hne
      rw [if_neg hne] at hmoldeq
      exact hne (hmoldeq ▸ hrowid)
    rw [if_pos hmoldid] at hmoldeq
    refine ⟨{ s with messages := s.messages.map (fun m => if m.id = input.message_id then { m with content := input.content, is_edited := true, updated_at := s.now } else m) },
      ⟨msgRow, ((s.users.filter (fun u => u.id = userId)).head?).map publicProfile⟩,
      ?_, rfl, rfl, rfl, rfl, ?_, ?_, ?_, hrowid, ?_, ?_, rfl⟩
    · simp only [updateMessage, hlen, hhead]
      simp
    · intro m hm hne
      exact List.mem_map.mpr ⟨m, hm, by rw [if_neg hne]⟩
    · intro m hm hid
      exact List.mem_map.mpr ⟨m, hm, by rw [if_pos hid]⟩
    · exact (List.mem_filter.mp hrowmem).1
    · rw [← hmoldeq]
    · rw [← hmoldeq]

def msg7ex : Message := ⟨1, 1, 1, "hello", MsgType.text, none, none, none, false, 2, 2⟩

def s7ex : Store := ⟨[exUserA], [exChanPub], [⟨1, 1, 1, Role.owner, 0⟩], [msg7ex], 2, 2, 2, 9⟩

theorem updateMessage_spec_witness :
    ∃ s₂ mw, updateMessage s7ex ⟨1, "edited"⟩ 1 = (s₂, Except.ok mw)
      ∧ s₂.messages = [⟨1, 1, 1, "edited", MsgType.text, none, none, none, true, 2, 9⟩]
      ∧ mw.msg.is_edited = true := by
  obtain ⟨s₂, mw, h1, h2, _, _, _, _, _, _, _, _, h11, _⟩ :=
    (updateMessage_spec s7ex ⟨1, "edited"⟩ 1).2 ⟨msg7ex, by decide, by decide, by decide⟩
  exact ⟨s₂, mw, h1, by rw [h2]; decide, h11⟩

/-- Does `f` hold of some suffix of the list (the list itself included)? -/
def anySuffix (f : List Char → Bool) : List Char → Bool
  | [] => f []
  | d :: s => f (d :: s) || anySuffix f s

/-- PostgreSQL LIKE/ILIKE pattern matching over characters: `%` matches any
sequence (encoded as: the rest of the pattern matches some suffix), `_` any
single character, backslash escapes the following pattern character; ILIKE
folds case on both sides.  A pattern ending in a lone escape character is a
PostgreSQL error and is modelled as matching nothing (no theorem depends on
that corner). -/
def likeMatch : List Char → List Char → Bool
  | [], s => s.isEmpty
  | p :: ps, s =>
    if p = '%' then
      anySuffix (likeMatch ps) s
    else if p = '_' then
      match s with
      | [] => false
      | _ :: s₂ => likeMatch ps s₂
    else if p = '\\' then
      match ps with
      | [] => false
      | q :: ps₂ =>
        match s with
        | [] => false
        | d :: s₂ => (q.toLower = d.toLower) && likeMatch ps₂ s₂
    else
      match s with
      | [] => false
      | d :: s₂ => (p.toLower = d.toLower) && likeMatch ps s₂

/-- Case-insensitively, is the first list a prefix of the second? -/
def prefixCI : List Char → List Char → Bool
  | [], _ => true
  | _ :: _, [] => false
  | c :: cs, d :: ds => (c.toLower = d.toLower) && prefixCI cs ds

/-- Case-insensitively, does `q` occur as a contiguous substring of `s`?
This is the spec's reading of "case-insensitive substring match". -/
def containsCIAux (q : List Char) : List Char → Bool
  | [] => prefixCI q []
  | d :: ds => prefixCI q (d :: ds) || containsCIAux q ds

def containsCI (q s : String) : Bool := containsCIAux q.data s.data

/-- Insertion sort on usernames, modelling ORDER BY username ascending. -/
def insertByUsername (u : User) : List User → List User
  | [] => [u]
  | v :: vs => if u.username ≤ v.username then u :: v :: vs else v :: insertByUsername u vs

def sortByUsername : List User → List User
  | [] => []
  | u :: us => insertByUsername u (sortByUsername us)

/-- searchUsers from handlers/users.ts (lines 49-72): WHERE id <> current AND
username ILIKE the query wrapped in percent signs, ORDER BY username
ascending, LIMIT 20, projected to the public profile. -/
def searchUsers (s : Store) (query : String) (currentUserId : Nat) : List PublicUser :=
  ((sortByUsername (s.users.filter
      (fun u => !(u.id = currentUserId) && likeMatch ('%' :: (query.data ++ ['%'])) u.username.data))).take 20).map publicProfile

theorem likeMatch_cons (p : Char) (ps s : List Char) :
    likeMatch (p :: ps) s =
      (if p = '%' then anySuffix (likeMatch ps) s
       else if p = '_' then
         (match s with
          | [] => false
          | _ :: s₂ => likeMatch ps s₂)
       else if p = '\\' then
         (match ps with
          | [] => false
          | q :: ps₂ =>
            match s with
            | [] => false
            | d :: s₂ => (q.toLower = d.toLower) && likeMatch ps₂ s₂)
       else
         (match s with
          | [] => false
          | d :: s₂ => (p.toLower = d.toLower) && likeMatch ps s₂)) := by
  cases ps <;> cases s <;> simp [likeMatch]

theorem anySuffix_congr {f g : List Char → Bool} (h : ∀ t, f t = g t) :
    ∀ s, anySuffix f s = anySuffix g s
  | [] => by simp [anySuffix, h]
  | d :: s => by simp [anySuffix, h, anySuffix_congr h s]

theorem anySuffix_isEmpty : ∀ s, anySuffix (fun t => t.isEmpty) s = true
  | [] => by simp [anySuffix]
  | d :: s => by simp [anySuffix, anySuffix_isEmpty s]

theorem likeMatch_pct_nil (s : List Char) : likeMatch ['%'] s = true := by
  rw [likeMatch_cons, if_pos rfl,
    anySuffix_congr (fun t => likeMatch.eq_1 t), anySuffix_isEmpty]

theorem likeMatch_plain_pct : ∀ (q : List Char),
    (∀ c ∈ q, c ≠ '%' ∧ c ≠ '_' ∧ c ≠ '\\') →
    ∀ s, likeMatch (q ++ ['%']) s = prefixCI q s
  | [], _, s => by simp [likeMatch_pct_nil s, prefixCI]
  | c :: q, hq, s => by
    obtain ⟨h1, h2, h3⟩ := hq c (List.mem_cons_self c q)
    have hq' : ∀ x ∈ q, x ≠ '%' ∧ x ≠ '_' ∧ x ≠ '\\' :=
      fun x hx => hq x (List.mem_cons_of_mem c hx)
    cases s with
    | nil =>
      rw [List.cons_append, likeMatch_cons, if_neg h1, if_neg h2, if_neg h3]
      simp [prefixCI]
    | cons d s =>
      rw [List.cons_append, likeMatch_cons, if_neg h1, if_neg h2, if_neg h3]
      simp only [prefixCI]
      rw [likeMatch_plain_pct q hq' s]

theorem anySuffix_prefixCI (q : List Char) :
    ∀ s, anySuffix (prefixCI q) s = containsCIAux q s
  | [] => by simp [anySuffix, containsCIAux]
  | d :: s => by simp [anySuffix, containsCIAux, anySuffix_prefixCI q s]

theorem likeMatch_pct_plain_pct (q : List Char)
    (hq : ∀ c ∈ q, c ≠ '%' ∧ c ≠ '_' ∧ c ≠ '\\') (s : List Char) :
    likeMatch ('%' :: (q ++ ['%'])) s = containsCIAux q s := by
  rw [likeMatch_cons, if_pos rfl,
    anySuffix_congr (likeMatch_plain_pct q hq), anySuffix_prefixCI]

def ule (a b : User) : Prop := a.username ≤ b.username

theorem mem_insertByUsername {x u : User} :
    ∀ l, x ∈ insertByUsername u l ↔ x = u ∨ x ∈ l
  | [] => by simp [insertByUsername]
  | v :: vs => by
    simp only [insertByUsername]
    by_cases h : u.username ≤ v.username
    · rw [if_pos h]
      simp only [List.mem_cons]
    · rw [if_neg h]
      simp only [List.mem_cons, mem_insertByUsername vs]
      tauto

theorem pairwise_insertByUsername {u : User} :
    ∀ {l}, List.Pairwise ule l → List.Pairwise ule (insertByUsername u l)
  | [], _ => by simp [insertByUsername, List.Pairwise]
  | v :: vs, h => by
    obtain ⟨hv, hvs⟩ := List.pairwise_cons.mp h
    simp only [insertByUsername]
    by_cases hle : u.username ≤ v.username
    · rw [if_pos hle]
      refine List.pairwise_cons.mpr ⟨?_, h⟩
      intro x hx
      rcases List.mem_cons.mp hx with hx | hx
      · subst hx; exact hle
      · exact le_trans hle (hv x hx)
    · rw [if_neg hle]
      refine List.pairwise_cons.mpr ⟨?_, pairwise_insertByUsername hvs⟩
      intro x hx
      rcases (mem_insertByUsername vs).mp hx with hx | hx
      · subst hx; exact le_of_not_le hle
      · exact hv x hx

theorem pairwise_sortByUsername : ∀ l, List.Pairwise ule (sortByUsername l)
  | [] => by simp [sortByUsername]
  | u :: us => by
    simp only [sortByUsername]
    exact pairwise_insertByUsername (pairwise_sortByUsername us)

theorem mem_sortByUsername {x : User} :
    ∀ l, x ∈ sortByUsername l ↔ x ∈ l
  | [] => by simp [sortByUsername]
  | u :: us => by
    simp only [sortByUsername, List.mem_cons, mem_insertByUsername, mem_sortByUsername us]

/-- Claim C9 (amended): for query strings free of the SQL LIKE
metacharacters percent, underscore and backslash, searchUsers returns
exactly the users other than the requester whose username contains the query
as a case-insensitive substring, sorted by username ascending and capped at
20 results. -/
theorem searchUsers_substring_spec (s : Store) (query : String) (currentUserId : Nat)
    (hq : ∀ c ∈ query.data, c ≠ '%' ∧ c ≠ '_' ∧ c ≠ '\\') :
    searchUsers s query currentUserId =
      ((sortByUsername (s.users.filter
          (fun u => !(u.id = currentUserId) && containsCI query u.username))).take 20).map publicProfile
    ∧ (searchUsers s query currentUserId).length ≤ 20
    ∧ List.Pairwise (fun a b : PublicUser => a.username ≤ b.username)
        (searchUsers s query currentUserId)
    ∧ (∀ p ∈ searchUsers s query currentUserId,
        ∃ u ∈ s.users, publicProfile u = p ∧ u.id ≠ currentUserId
          ∧ containsCI query u.username = true) := by
  have hfil : s.users.filter
      (fun u => !(u.id = currentUserId) && likeMatch ('%' :: (query.data ++ ['%'])) u.username.data)
      = s.users.filter (fun u => !(u.id = currentUserId) && containsCI query u.username) := by
    apply List.filter_congr
    intro u _
    rw [likeMatch_pct_plain_pct query.data hq u.username.data]
    rfl
  refine ⟨?_, ?_, ?_, ?_⟩
  · rw [searchUsers, hfil]
  · rw [searchUsers]
    simp only [List.length_map]
    exact List.length_take_le 20 _
  · rw [searchUsers]
    rw [List.pairwise_map]
    exact (pairwise_sortByUsername _).sublist (List.take_sublist 20 _)
  · intro p hp
    rw [searchUsers] at hp
    obtain ⟨u, hu, hup⟩ := List.mem_map.mp hp
    have humem : u ∈ sortByUsername (s.users.filter
        (fun u => !(u.id = currentUserId) && likeMatch ('%' :: (query.data ++ ['%'])) u.username.data)) :=
      List.take_subset 20 _ hu
    rw [mem_sortByUsername, hfil] at humem
    obtain ⟨humem2, hcond⟩ := List.mem_filter.mp humem
    simp only [Bool.and_eq_true, Bool.not_eq_eq_eq_not, Bool.not_true,
      decide_eq_false_iff_not] at hcond
    exact ⟨u, humem2, hup, hcond.1, hcond.2⟩

def u9ex : User := ⟨1, "ab", "ab@example.com", "h9", none, false, none, 0, 0⟩

def s9ex : Store := ⟨[u9ex], [], [], [], 1, 1, 1, 0⟩

theorem searchUsers_substring_spec_witness :
    searchUsers s9ex "a" 2 = [publicProfile u9ex]
    ∧ (searchUsers s9ex "a" 2).length ≤ 20 := by
  obtain ⟨h1, h2, _, _⟩ := searchUsers_substring_spec s9ex "a" 2 (by decide)
  refine ⟨?_, h2⟩
  rw [h1]
  decide

/-- Claim C9, counterexample: with the query consisting of a lone
underscore, searchUsers returns the user "ab" although "ab" does not contain
"_" as a substring — the underscore acts as an ILIKE wildcard. -/
theorem searchUsers_wildcard_counterexample :
    searchUsers s9ex "_" 2 = [publicProfile u9ex]
    ∧ containsCI "_" "ab" = false := by
  constructor
  · decide
  · decide

/-- The JS \s class, restricted to the ASCII whitespace characters (space,
tab, newline, vertical tab, form feed, carriage return); the Unicode space
code points also in \s do not occur in any theorem here. -/
def isJsSpace (c : Char) : Bool :=
  c = ' ' || c = '\t' || c = '\n' || c.toNat = 11 || c.toNat = 12 || c = '\r'

/-- Does the regex `https?:\/\/[^\s]+` match starting exactly at the head of
`s`?  If so, return the (greedy) matched characters: the maximal non-space
run.  The optional `s` of `https?` is greedy, so the longer scheme is tried
first. -/
def urlMatchAt (s : List Char) : Option (List Char) :=
  let len : Option Nat :=
    if "https://".data.isPrefixOf s then some 8
    else if "http://".data.isPrefixOf s then some 7
    else none
  match len with
  | some n =>
    match s.drop n with
    | [] => none
    | d :: _ => if isJsSpace d then none else some (s.takeWhile (fun c => !(isJsSpace c)))
  | none => none

def extractFirstUrlAux : List Char → Option (List Char)
  | [] => none
  | c :: rest =>
    match urlMatchAt (c :: rest) with
    | some u => some u
    | none => extractFirstUrlAux rest

/-- `content.match(/(https?:\/\/[^\s]+)/g)` followed by taking `urls[0]`:
the leftmost match of the URL regex wins. -/
def extractFirstUrl (content : String) : Option String :=
  (extractFirstUrlAux content.data).map (fun l => String.mk l)

/-- The link-preview object shape shared by the LinkUnfurler contract and
unfurlLink: all fields nullable except url. -/
structure Preview where
  title : Option String
  description : Option String
  image : Option String
  url : String
deriving DecidableEq, Repr

def hexDigit (n : Nat) : Char :=
  if n < 10 then Char.ofNat (48 + n) else Char.ofNat (87 + n)

/-- JSON.stringify escaping of a single character inside a string literal. -/
def jsonEscapeChar (c : Char) : List Char :=
  if c = '"' then ['\\', '"']
  else if c = '\\' then ['\\', '\\']
  else if c.toNat = 8 then ['\\', 'b']
  else if c = '\t' then ['\\', 't']
  else if c = '\n' then ['\\', 'n']
  else if c.toNat = 12 then ['\\', 'f']
  else if c = '\r' then ['\\', 'r']
  else if c.toNat < 32 then ['\\', 'u', '0', '0', hexDigit (c.toNat / 16), hexDigit (c.toNat % 16)]
  else [c]

def jsonStr (s : String) : String :=
  String.mk ('"' :: (s.data.map jsonEscapeChar).flatten ++ ['"'])

def jsonStrOrNull : Option String → String
  | some s => jsonStr s
  | none => "null"

/-- JSON.stringify of the preview object, keys in insertion order. -/
def stringifyPreview (p : Preview) : String :=
  "\x7b\"title\":" ++ jsonStrOrNull p.title ++ ",\"description\":" ++ jsonStrOrNull p.description
    ++ ",\"image\":" ++ jsonStrOrNull p.image ++ ",\"url\":" ++ jsonStr p.url ++ "\x7d"

/-- Models the JS `x || null` / `if (x)` idiom on an optional numeric id: 0
is falsy and is treated like null. -/
def natOrNull : Option Nat → Option Nat
  | some n => if n = 0 then none else some n
  | none => none

/-- sendMessageInputSchema (schema.ts); message_type defaults to text in zod,
so it is always present here, and `input.message_type || 'text'` in the
handler is the identity on the nonempty enum strings. -/
structure SendMessageInput where
  channel_id : Nat
  content : String
  message_type : MsgType
  image_url : Option String
  reply_to_message_id : Option Nat
deriving DecidableEq, Repr

/-- sendMessage from handlers/messages.ts (lines 6-97).  The external
LinkUnfurler is the `unfurl` oracle (per its contract it never raises, so
the dead catch around it is dropped); its result is stored as JSON text.
Note `if (input.reply_to_message_id)` and `input.reply_to_message_id || null`
are JS truthiness tests, so a reply id of 0 skips the reply validation and
is stored as null. -/
def sendMessage (unfurl : String → Preview) (s : Store) (input : SendMessageInput)
    (userId : Nat) : Store × Except String MessageWithUser :=
  let membership := s.members.filter
    (fun m => m.channel_id = input.channel_id && m.user_id = userId)
  if membership.length = 0 then
    (s, Except.error "User is not a member of this channel")
  else
    let linkPreviewData : Option String :=
      if input.message_type = MsgType.link then
        match extractFirstUrl input.content with
        | some url => some (stringifyPreview (unfurl url))
        | none => none
      else none
    let replyMissing : Bool :=
      match natOrNull input.reply_to_message_id with
      | some replyId =>
        (s.messages.filter (fun m => m.id = replyId && m.channel_id = input.channel_id)).length = 0
      | none => false
    if replyMissing then
      (s, Except.error "Reply target message not found in this channel")
    else
      let message : Message :=
        ⟨s.nextMessageId, input.channel_id, userId, input.content, input.message_type,
          strOrNull input.image_url, linkPreviewData, natOrNull input.reply_to_message_id,
          false, s.now, s.now⟩
      let user := (s.users.filter (fun u => u.id = userId)).head?
      ({ s with messages := s.messages ++ [message], nextMessageId := s.nextMessageId + 1 },
       Except.ok ⟨message, user.map publicProfile⟩)

/-- Claim C5 (amended): SendMessage raises exactly when the author is not a
member of the channel, or reply_to_message_id is given with a NON-ZERO id
and no message with that id exists in that channel (a reply target in
another channel also raises); a reply id of 0 is JS-falsy, skips the check
and is stored as null; otherwise exactly one message row is inserted with
is_edited=false and returned joined with the author's public profile; on a
raised error the store is unchanged. -/
theorem sendMessage_spec (unfurl : String → Preview) (s : Store)
    (input : SendMessageInput) (userId : Nat) :
    ((∀ m ∈ s.members, ¬(m.channel_id = input.channel_id ∧ m.user_id = userId)) →
      sendMessage unfurl s input userId =
        (s, Except.error "User is not a member of this channel"))
    ∧ ((∃ m ∈ s.members, m.channel_id = input.channel_id ∧ m.user_id = userId) →
        (∀ replyId, input.reply_to_message_id = some replyId → replyId ≠ 0 →
          (∀ msg ∈ s.messages, ¬(msg.id = replyId ∧ msg.channel_id = input.channel_id)) →
          sendMessage unfurl s input userId =
            (s, Except.error "Reply target message not found in this channel"))
        ∧ ((∀ replyId, input.reply_to_message_id = some replyId → replyId ≠ 0 →
            ∃ msg ∈ s.messages, msg.id = replyId ∧ msg.channel_id = input.channel_id) →
          ∃ s₂ mw, sendMessage unfurl s input userId = (s₂, Except.ok mw)
            ∧ s₂.messages = s.messages ++ [mw.msg]
            ∧ mw.msg.is_edited = false
            ∧ mw.msg.channel_id = input.channel_id ∧ mw.msg.user_id = userId
            ∧ mw.msg.content = input.content ∧ mw.msg.message_type = input.message_type
            ∧ mw.user = ((s.users.filter (fun u => u.id = userId)).head?).map publicProfile
            ∧ s₂.users = s.users ∧ s₂.channels = s.channels ∧ s₂.members = s.members)) := by
  constructor
  · intro hnom
    have hfil : s.members.filter
        (fun m => m.channel_id = input.channel_id && m.user_id = userId) = [] := by
      apply List.filter_eq_nil_iff.mpr
      intro m hm
      have := hnom m hm
      simp only [Bool.and_eq_true, decide_eq_true_eq]
      tauto
    simp [sendMessage, hfil]
  · intro ⟨m0, hm0, hmc0, hmu0⟩
    have hlen : (s.members.filter
        (fun m => m.channel_id = input.channel_id && m.user_id = userId)).length ≠ 0 := by
      have : m0 ∈ s.members.filter
          (fun m => m.channel_id = input.channel_id && m.user_id = userId) := by
        simp [List.mem_filter, hm0, hmc0, hmu0]
      intro hcon
      rw [List.length_eq_zero.mp hcon] at this
      exact absurd this (List.not_mem_nil m0)
    constructor
    · intro replyId hrid hnz hnomsg
      have hnat : natOrNull input.reply_to_message_id = some replyId := by
        rw [hrid]; simp [natOrNull, hnz]
      have hfil : s.messages.filter
          (fun m => m.id = replyId && m.channel_id = input.channel_id) = [] := by
        apply List.filter_eq_nil_iff.mpr
        intro m hm
        have := hnomsg m hm
        simp only [Bool.and_eq_true, decide_eq_true_eq]
        tauto
      simp [sendMessage, hlen, hnat, hfil]
    · intro hok
      have hmiss : (match natOrNull input.reply_to_message_id with
          | some replyId =>
            (s.messages.filter (fun m => m.id = replyId && m.channel_id = input.channel_id)).length = 0
          | none => false) = false := by
        cases hr : input.reply_to_message_id with
        | none => simp [natOrNull]
        | some n =>
          by_cases hz : n = 0
          · subst hz; simp [natOrNull]
          · simp only [natOrNull, if_neg hz]
            obtain ⟨msg, hmsg, hmid, hmch⟩ := hok n hr hz
            have : msg ∈ s.messages.filter
                (fun m => m.id = n && m.channel_id = input.channel_id) := by
              simp [List.mem_filter, hmsg, hmid, hmch]
            simp only [decide_eq_false_iff_not]
            intro hcon
            rw [List.length_eq_zero.mp hcon] at this
            exact absurd this (List.not_mem_nil msg)
      have hsend : sendMessage unfurl s input userId =
          ({ s with messages := s.messages ++ [⟨s.nextMessageId, input.channel_id, userId, input.content, input.message_type, strOrNull input.image_url, (if input.message_type = MsgType.link then (match extractFirstUrl input.content with | some url => some (stringifyPreview (unfurl url)) | none => none) else none), natOrNull input.reply_to_message_id, false, s.now, s.now⟩], nextMessageId := s.nextMessageId + 1 },
           Except.ok ⟨⟨s.nextMessageId, input.channel_id, userId, input.content, input.message_type, strOrNull input.image_url, (if input.message_type = MsgType.link then (match extractFirstUrl input.content with | some url => some (stringifyPreview (unfurl url)) | none => none) else none), natOrNull input.reply_to_message_id, false, s.now, s.now⟩, ((s.users.filter (fun u => u.id = userId)).head?).map publicProfile⟩) := by
        simp only [sendMessage, hlen, hmiss]
        simp
      exact ⟨_, _, hsend, rfl, rfl, rfl, rfl, rfl, rfl, rfl, rfl, rfl, rfl⟩

def sC5ex : Store := ⟨[exUserA], [exChanPub], [⟨1, 1, 1, Role.owner, 0⟩], [], 2, 2, 1, 7⟩

def inpC5ex : SendMessageInput := ⟨1, "hi", MsgType.text, none, some 0⟩

/-- The LinkUnfurler degraded to its failure output: every field null except
the echoed url (the contract's "never raises" fallback). -/
def nullUnfurl : String → Preview := fun url => ⟨none, none, none, url⟩

/-- Claim C5, counterexample to the claim as stated: reply_to_message_id=0 is
given and no message with id 0 exists (the message table is empty), yet
sendMessage does not raise — the JS truthiness test skips the reply check
and stores null. -/
theorem sendMessage_zero_reply_counterexample :
    inpC5ex.reply_to_message_id = some 0
    ∧ sC5ex.messages = []
    ∧ sendMessage nullUnfurl sC5ex inpC5ex 1 =
        ({ sC5ex with messages := [⟨1, 1, 1, "hi", MsgType.text, none, none, none, false, 7, 7⟩], nextMessageId := 2 },
         Except.ok ⟨⟨1, 1, 1, "hi", MsgType.text, none, none, none, false, 7, 7⟩, some (publicProfile exUserA)⟩) := by
  refine ⟨rfl, rfl, ?_⟩
  rfl

theorem sendMessage_spec_witness :
    ∃ s₂ mw, sendMessage nullUnfurl sC5ex ⟨1, "hello", MsgType.text, none, none⟩ 1 =
        (s₂, Except.ok mw)
      ∧ s₂.messages = [mw.msg] ∧ mw.msg.is_edited = false
      ∧ mw.user = some (publicProfile exUserA) := by
  obtain ⟨s₂, mw, h1, h2, h3, _, _, _, _, h8, _⟩ :=
    ((sendMessage_spec nullUnfurl sC5ex ⟨1, "hello", MsgType.text, none, none⟩ 1).2
      ⟨⟨1, 1, 1, Role.owner, 0⟩, by decide, by decide, by decide⟩).2
      (fun replyId h => by simp at h)
  exact ⟨s₂, mw, h1, by rw [h2]; rfl, h3, by rw [h8]; rfl⟩

/-- Claim C6 (amended): for a link-typed message the first http(s) URL of
the content is what gets passed to the unfurler and its result, serialized
as JSON text, is stored; content with no URL match leads to no unfurl
attempt (the result does not depend on the unfurler) and a stored
link_preview of null; when the unfurler fails (returns its null-filled
fallback) the message is still stored, but link_preview holds the JSON
serialization of that null-filled preview — not null. -/
theorem sendMessage_link_preview_spec (unfurl : String → Preview) (s : Store)
    (input : SendMessageInput) (userId : Nat)
    (hlink : input.message_type = MsgType.link) :
    ((extractFirstUrl input.content = none →
        (∀ unfurl₂, sendMessage unfurl₂ s input userId = sendMessage unfurl s input userId)
        ∧ (∀ s₂ mw, sendMessage unfurl s input userId = (s₂, Except.ok mw) →
            mw.msg.link_preview = none ∧ mw.msg ∈ s₂.messages))
    ∧ (∀ url, extractFirstUrl input.content = some url →
        ∀ s₂ mw, sendMessage unfurl s input userId = (s₂, Except.ok mw) →
          mw.msg.link_preview = some (stringifyPreview (unfurl url))
          ∧ mw.msg ∈ s₂.messages)
    ∧ (∀ url, extractFirstUrl input.content = some url →
        unfurl url = ⟨none, none, none, url⟩ →
        ∀ s₂ mw, sendMessage unfurl s input userId = (s₂, Except.ok mw) →
          mw.msg.link_preview = some (stringifyPreview ⟨none, none, none, url⟩)
          ∧ mw.msg.link_preview ≠ none ∧ mw.msg ∈ s₂.messages)) := by
  have hstored : ∀ s₂ mw, sendMessage unfurl s input userId = (s₂, Except.ok mw) →
      mw.msg.link_preview =
        (match extractFirstUrl input.content with
         | some url => some (stringifyPreview (unfurl url))
         | none => none)
      ∧ mw.msg ∈ s₂.messages := by
    intro s₂ mw hok
    by_cases hm : (s.members.filter
        (fun m => m.channel_id = input.channel_id && m.user_id = userId)).length = 0
    · simp only [sendMessage, hm, if_pos] at hok
      simp at hok
    · by_cases hr : (match natOrNull input.reply_to_message_id with
          | some replyId =>
            (s.messages.filter (fun m => m.id = replyId && m.channel_id = input.channel_id)).length = 0
          | none => false) = true
      · simp only [sendMessage, hm, hr] at hok
        simp at hok
      · simp only [sendMessage, hm, hr] at hok
        simp only [if_neg hm, Bool.eq_false_iff.mpr hr, if_false, hlink] at hok
        simp at hok
        obtain ⟨hs₂, hmw⟩ := hok
        subst hs₂
        rw [← hmw]
        constructor
        · simp [hlink]
        · simp [hlink]
  refine ⟨?_, ?_, ?_⟩
  · intro hnone
    constructor
    · intro unfurl₂
      simp only [sendMessage, hlink, hnone]
    · intro s₂ mw hok
      have h := hstored s₂ mw hok
      rw [hnone] at h
      exact ⟨h.1.trans rfl, h.2⟩
  · intro url hurl s₂ mw hok
    have h := hstored s₂ mw hok
    rw [hurl] at h
    exact ⟨h.1.trans rfl, h.2⟩
  · intro url hurl hfail s₂ mw hok
    have h := hstored s₂ mw hok
    rw [hurl] at h
    have h1 : mw.msg.link_preview = some (stringifyPreview (unfurl url)) := h.1.trans rfl
    rw [hfail] at h1
    exact ⟨h1, by rw [h1]; simp, h.2⟩

def inpC6ex : SendMessageInput := ⟨1, "see https://x", MsgType.link, none, none⟩

def msgC6ex : Message :=
  ⟨1, 1, 1, "see https://x", MsgType.link, none,
    some (stringifyPreview ⟨none, none, none, "https://x"⟩), none, false, 7, 7⟩

/-- Claim C6, counterexample to the claim as stated: the unfurler fails
(returns its null-filled fallback), the message is stored — but its
link_preview column holds the JSON text of the null-filled preview, not
null, because sendMessage stringifies whatever the unfurler returned and
the unfurler never throws. -/
theorem sendMessage_unfurl_failure_counterexample :
    extractFirstUrl "see https://x" = some "https://x"
    ∧ nullUnfurl "https://x" = ⟨none, none, none, "https://x"⟩
    ∧ (sendMessage nullUnfurl sC5ex inpC6ex 1).2 =
        Except.ok ⟨msgC6ex, some (publicProfile exUserA)⟩
    ∧ msgC6ex.link_preview ≠ (none : Option String) := by
  refine ⟨rfl, rfl, rfl, by simp [msgC6ex]⟩

theorem sendMessage_link_preview_spec_witness :
    msgC6ex.link_preview = some (stringifyPreview ⟨none, none, none, "https://x"⟩)
    ∧ msgC6ex.link_preview ≠ none := by
  have h := ((sendMessage_link_preview_spec nullUnfurl sC5ex inpC6ex 1 rfl).2.2)
    "https://x" rfl rfl
    ({ sC5ex with messages := [msgC6ex], nextMessageId := 2 })
    ⟨msgC6ex, some (publicProfile exUserA)⟩ rfl
  exact ⟨h.1, h.2.1⟩

/-- The dedup search of createPrivateChat (handlers/messages.ts lines
367-385): chat_channels INNER JOIN channel_members ON channel id, WHERE
is_private AND (member is userId OR member is otherUserId), one row per
(channel, member) pair in table order. -/
def candidateRows (s : Store) (userId otherUserId : Nat) : List (Channel × Membership) :=
  (s.channels.map (fun c =>
    (s.members.filter (fun m => m.channel_id = c.id && c.is_private && (m.user_id = userId || m.user_id = otherUserId))).map
      (fun m => (c, m)))).flatten

/-- The per-channel member reload inside the dedup loop (lines 400-405). -/
def channelMemberIds (s : Store) (channelId : Nat) : List Nat :=
  (s.members.filter (fun m => m.channel_id = channelId)).map (fun m => m.user_id)

/-- `memberIds.has(userId) && memberIds.has(otherUserId) && memberIds.size === 2`
on the Set of the channel's member user ids (line 406). -/
def exactPair (s : Store) (c : Channel) (userId otherUserId : Nat) : Bool :=
  userId ∈ channelMemberIds s c.id && otherUserId ∈ channelMemberIds s c.id
    && (channelMemberIds s c.id).dedup.length = 2

/-- The for-loop over the join rows: the first row whose channel's member
set is exactly the pair, projected to the channel (lines 398-409). -/
def findExistingPrivateChat (s : Store) (userId otherUserId : Nat) : Option Channel :=
  ((candidateRows s userId otherUserId).find?
    (fun cm => exactPair s cm.1 userId otherUserId)).map (fun cm => cm.1)

/-- createPrivateChat from handlers/messages.ts (lines 365-445): return the
first existing exact-pair private channel unchanged, else insert a new
unnamed private channel created by userId with userId as owner and
otherUserId as member. -/
def createPrivateChat (s : Store) (userId otherUserId : Nat) : Store × Channel :=
  match findExistingPrivateChat s userId otherUserId with
  | some c => (s, c)
  | none =>
    let newChannel : Channel := ⟨s.nextChannelId, "", none, true, userId, s.now, s.now⟩
    let s1 := { s with channels := s.channels ++ [newChannel], nextChannelId := s.nextChannelId + 1 }
    ({ s1 with members := s1.members ++ [⟨s1.nextMemberId, newChannel.id, userId, Role.owner, s1.now⟩, ⟨s1.nextMemberId + 1, newChannel.id, otherUserId, Role.member, s1.now⟩], nextMemberId := s1.nextMemberId + 2 }, newChannel)

theorem find?_const_true {α : Type} (l : List α) : l.find? (fun _ => true) = l.head? := by
  cases l <;> simp

theorem find?_const_false {α : Type} (l : List α) : l.find? (fun _ => false) = none := by
  induction l with
  | nil => rfl
  | cons a l ih => simp

theorem candidateRows_comm (s : Store) (a b : Nat) :
    candidateRows s a b = candidateRows s b a := by
  have h : (fun c : Channel => (s.members.filter (fun m => m.channel_id = c.id && c.is_private && (m.user_id = a || m.user_id = b))).map (fun m => (c, m)))
      = (fun c : Channel => (s.members.filter (fun m => m.channel_id = c.id && c.is_private && (m.user_id = b || m.user_id = a))).map (fun m => (c, m))) := by
    funext c
    congr 1
    apply List.filter_congr
    intro m _
    rw [Bool.or_comm]
  unfold candidateRows
  rw [h]

theorem exactPair_comm (s : Store) (c : Channel) (a b : Nat) :
    exactPair s c a b = exactPair s c b a := by
  unfold exactPair
  cases h1 : (decide (a ∈ channelMemberIds s c.id)) <;>
    cases h2 : (decide (b ∈ channelMemberIds s c.id)) <;>
      simp [h1, h2]

theorem findExistingPrivateChat_comm (s : Store) (a b : Nat) :
    findExistingPrivateChat s a b = findExistingPrivateChat s b a := by
  have h : (fun cm : Channel × Membership => exactPair s cm.1 a b)
      = (fun cm : Channel × Membership => exactPair s cm.1 b a) := by
    funext cm
    exact exactPair_comm s cm.1 a b
  unfold findExistingPrivateChat
  rw [candidateRows_comm, h]

/-- The join–loop search returns precisely the first channel, in table
order, that is private and whose member set is exactly the pair. -/
theorem findExistingPrivateChat_eq_find? (s : Store) (a b : Nat) :
    findExistingPrivateChat s a b =
      s.channels.find? (fun c => c.is_private && exactPair s c a b) := by
  unfold findExistingPrivateChat candidateRows
  induction s.channels with
  | nil => rfl
  | cons c cs ih =>
    simp only [List.map_cons, List.flatten_cons, List.find?_append]
    by_cases hpriv : c.is_private
    · by_cases hep : exactPair s c a b = true
      · -- the channel qualifies: its candidate rows are nonempty and every
        -- row carries this channel
        rw [List.find?_cons_of_pos _ (by simp [hpriv, hep])]
        have hmema : a ∈ channelMemberIds s c.id := by
          have h0 := hep
          unfold exactPair at h0
          simp only [Bool.and_eq_true, decide_eq_true_eq] at h0
          exact h0.1.1
        obtain ⟨m, hm⟩ : ∃ m, m ∈ s.members.filter
            (fun m => m.channel_id = c.id && c.is_private && (m.user_id = a || m.user_id = b)) := by
          unfold channelMemberIds at hmema
          obtain ⟨m, hmf, hmu⟩ := List.mem_map.mp hmema
          obtain ⟨hmm, hmc⟩ := List.mem_filter.mp hmf
          refine ⟨m, List.mem_filter.mpr ⟨hmm, ?_⟩⟩
          simp only [decide_eq_true_eq] at hmc
          simp only [Bool.and_eq_true, Bool.or_eq_true, decide_eq_true_eq]
          exact ⟨⟨hmc, hpriv⟩, Or.inl hmu⟩
        rw [List.find?_map]
        have hconst : ((fun cm : Channel × Membership => exactPair s cm.1 a b) ∘ (fun m => (c, m)))
            = fun _ => true := by
          funext m
          simp [Function.comp, hep]
        rw [hconst, find?_const_true]
        obtain ⟨m0, hm0⟩ := head?_some_of_ne_nil
          (l := s.members.filter (fun m => m.channel_id = c.id && c.is_private && (m.user_id = a || m.user_id = b)))
          (fun hcon => by rw [hcon] at hm; exact absurd hm (List.not_mem_nil m))
        rw [hm0]
        rfl
      · -- the member set is not exactly the pair: every row of this channel
        -- fails the loop check
        rw [List.find?_cons_of_neg _ (by simp [Bool.eq_false_iff.mpr hep])]
        rw [List.find?_map]
        have hconst : ((fun cm : Channel × Membership => exactPair s cm.1 a b) ∘ (fun m => (c, m)))
            = fun _ => false := by
          funext m
          simp [Function.comp, Bool.eq_false_iff.mpr hep]
        rw [hconst, find?_const_false]
        simp only [Option.map_none', Option.none_or]
        exact ih
    · -- private flag is false: the WHERE clause filters out every row,
      -- and the first-channel predicate also fails
      rw [List.find?_cons_of_neg _ (by simp [Bool.eq_false_iff.mpr hpriv])]
      have hnil : s.members.filter
          (fun m => m.channel_id = c.id && c.is_private && (m.user_id = a || m.user_id = b)) = [] := by
        apply List.filter_eq_nil_iff.mpr
        intro m _
        simp [Bool.eq_false_iff.mpr hpriv]
      rw [hnil]
      simp only [List.map_nil, List.nil_append, Option.none_or]
      exact ih

theorem createPrivateChat_found {s : Store} {a b : Nat} {c : Channel}
    (h : findExistingPrivateChat s a b = some c) : createPrivateChat s a b = (s, c) := by
  simp only [createPrivateChat, h]

theorem createPrivateChat_new {s : Store} {a b : Nat}
    (h : findExistingPrivateChat s a b = none) :
    createPrivateChat s a b =
      ({ s with channels := s.channels ++ [⟨s.nextChannelId, "", none, true, a, s.now, s.now⟩], nextChannelId := s.nextChannelId + 1, members := s.members ++ [⟨s.nextMemberId, s.nextChannelId, a, Role.owner, s.now⟩, ⟨s.nextMemberId + 1, s.nextChannelId, b, Role.member, s.now⟩], nextMemberId := s.nextMemberId + 2 },
       ⟨s.nextChannelId, "", none, true, a, s.now, s.now⟩) := by
  simp only [createPrivateChat, h]

theorem filter_append_right_nil {α : Type} {l₁ l₂ : List α} {p : α → Bool}
    (h : ∀ x ∈ l₂, p x = false) : (l₁ ++ l₂).filter p = l₁.filter p := by
  have h2 : l₂.filter p = [] :=
    List.filter_eq_nil_iff.mpr (fun x hx => by simp [h x hx])
  rw [List.filter_append, h2, List.append_nil]

theorem exactPair_of_memberIds_eq {s s' : Store} {c : Channel} {a b : Nat}
    (h : channelMemberIds s' c.id = channelMemberIds s c.id) :
    exactPair s' c a b = exactPair s c a b := by
  unfold exactPair
  rw [h]

theorem findExisting_after_create {s : Store} {a b : Nat}
    (hab : a ≠ b)
    (hwfC : ∀ c ∈ s.channels, c.id < s.nextChannelId)
    (hwfM : ∀ m ∈ s.members, m.channel_id < s.nextChannelId)
    (hnone : findExistingPrivateChat s a b = none) :
    findExistingPrivateChat (createPrivateChat s a b).1 a b =
      some (createPrivateChat s a b).2 := by
  rw [createPrivateChat_new hnone]
  set newc : Channel := ⟨s.nextChannelId, "", none, true, a, s.now, s.now⟩ with hnewc
  set rows : List Membership :=
    [⟨s.nextMemberId, s.nextChannelId, a, Role.owner, s.now⟩,
     ⟨s.nextMemberId + 1, s.nextChannelId, b, Role.member, s.now⟩] with hrows
  set s₂ : Store := { s with channels := s.channels ++ [newc], nextChannelId := s.nextChannelId + 1, members := s.members ++ rows, nextMemberId := s.nextMemberId + 2 } with hs₂
  have hmemids : ∀ cid, cid ≠ s.nextChannelId →
      channelMemberIds s₂ cid = channelMemberIds s cid := by
    intro cid hcid
    unfold channelMemberIds
    rw [hs₂]
    simp only
    rw [filter_append_right_nil]
    intro m hm
    rw [hrows] at hm
    simp only [List.mem_cons, List.mem_singleton] at hm
    rcases hm with hm | hm | hm
    · subst hm; simp [Ne.symm hcid]
    · subst hm; simp [Ne.symm hcid]
    · exact absurd hm (List.not_mem_nil m)
  have hnewids : channelMemberIds s₂ s.nextChannelId = [a, b] := by
    unfold channelMemberIds
    rw [hs₂]
    simp only
    rw [List.filter_append, List.filter_eq_nil_iff.mpr (fun m hm => by
      have := hwfM m hm
      simp only [decide_eq_true_eq]
      omega)]
    rw [List.nil_append, hrows]
    simp [List.filter]
  rw [findExistingPrivateChat_eq_find?]
  have hch : s₂.channels = s.channels ++ [newc] := rfl
  rw [hch, List.find?_append]
  have hold : s.channels.find? (fun c => c.is_private && exactPair s₂ c a b) = none := by
    apply List.find?_eq_none.mpr
    intro c hc
    have hcid : c.id ≠ s.nextChannelId := by
      have := hwfC c hc
      omega
    rw [exactPair_of_memberIds_eq (hmemids c.id hcid)]
    have h0 : findExistingPrivateChat s a b = none := hnone
    rw [findExistingPrivateChat_eq_find?] at h0
    have := List.find?_eq_none.mp h0 c hc
    simpa using this
  rw [hold, Option.none_or]
  have hpair : exactPair s₂ newc a b = true := by
    unfold exactPair
    have : newc.id = s.nextChannelId := rfl
    rw [this, hnewids]
    have hdedup : ([a, b] : List Nat).dedup = [a, b] := by
      rw [List.dedup_cons_of_not_mem (by simp [hab]), List.dedup_cons_of_not_mem (by simp),
        List.dedup_nil]
    simp [hdedup]
  rw [List.find?_cons_of_pos _ (by simp [hpair])]

/-- Claim C1: GetOrCreatePrivateChat is symmetric and deduplicating (for
distinct users and a store whose serial channel counter is fresh): the
dedup search is symmetric in argument order; a found exact-pair private
channel is returned with the store unchanged; otherwise a new channel is
created with empty name, is_private=true, created_by the first argument,
the first argument as owner and the second as member; and after one call,
repeated calls in either argument order return the same channel and leave
the store unchanged. -/
theorem createPrivateChat_spec (s : Store) (a b : Nat) (hab : a ≠ b)
    (hwfC : ∀ c ∈ s.channels, c.id < s.nextChannelId)
    (hwfM : ∀ m ∈ s.members, m.channel_id < s.nextChannelId) :
    findExistingPrivateChat s a b = findExistingPrivateChat s b a
    ∧ (∀ c, findExistingPrivateChat s a b = some c →
        createPrivateChat s a b = (s, c) ∧ createPrivateChat s b a = (s, c))
    ∧ (findExistingPrivateChat s a b = none →
        (createPrivateChat s a b).2 = ⟨s.nextChannelId, "", none, true, a, s.now, s.now⟩
        ∧ (createPrivateChat s a b).1.channels = s.channels ++ [(createPrivateChat s a b).2]
        ∧ (createPrivateChat s a b).1.members = s.members ++
            [⟨s.nextMemberId, s.nextChannelId, a, Role.owner, s.now⟩,
             ⟨s.nextMemberId + 1, s.nextChannelId, b, Role.member, s.now⟩]
        ∧ (createPrivateChat s a b).1.users = s.users
        ∧ (createPrivateChat s a b).1.messages = s.messages)
    ∧ (createPrivateChat (createPrivateChat s a b).1 a b =
        ((createPrivateChat s a b).1, (createPrivateChat s a b).2)
      ∧ createPrivateChat (createPrivateChat s a b).1 b a =
        ((createPrivateChat s a b).1, (createPrivateChat s a b).2)) := by
  refine ⟨findExistingPrivateChat_comm s a b, ?_, ?_, ?_⟩
  · intro c h
    exact ⟨createPrivateChat_found h,
      createPrivateChat_found ((findExistingPrivateChat_comm s b a).trans h)⟩
  · intro h
    rw [createPrivateChat_new h]
    exact ⟨rfl, rfl, rfl, rfl, rfl⟩
  · cases hfe : findExistingPrivateChat s a b with
    | some c =>
      have h1 := createPrivateChat_found hfe
      rw [h1]
      exact ⟨createPrivateChat_found hfe,
        createPrivateChat_found ((findExistingPrivateChat_comm s b a).trans hfe)⟩
    | none =>
      have hafter := findExisting_after_create hab hwfC hwfM hfe
      refine ⟨createPrivateChat_found hafter, ?_⟩
      have hsym := findExistingPrivateChat_comm (createPrivateChat s a b).1 b a
      exact createPrivateChat_found (hsym.trans hafter)

def sC1ex : Store := ⟨[exUserA, exUserB], [], [], [], 1, 1, 1, 3⟩

theorem createPrivateChat_spec_witness :
    findExistingPrivateChat sC1ex 1 2 = findExistingPrivateChat sC1ex 2 1
    ∧ createPrivateChat (createPrivateChat sC1ex 1 2).1 2 1 =
        ((createPrivateChat sC1ex 1 2).1, (createPrivateChat sC1ex 1 2).2)
    ∧ (createPrivateChat sC1ex 1 2).2 = ⟨1, "", none, true, 1, 3, 3⟩ := by
  obtain ⟨h1, _, h3, h4⟩ :=
    createPrivateChat_spec sC1ex 1 2 (by decide) (by decide) (by decide)
  refine ⟨h1, h4.2, ?_⟩
  rw [(h3 rfl).1]
  rfl


def sC2ex : Store := ⟨[exUserA], [], [], [], 1, 1, 1, 0⟩

/-- Claim C2: the membership-uniqueness invariant fails on the code.
Failing input: createPrivateChat(1,1) on a store holding only user 1 — the
handler inserts an owner row and a member row both for user 1 into the new
channel, two membership rows for one (channel, user) pair.  The evaluation
below exhibits the two rows. -/
theorem createPrivateChat_selfchat_duplicate_rows :
    ((createPrivateChat sC2ex 1 1).1.members.filter
      (fun m => m.channel_id = 1 && m.user_id = 1)).length = 2
    ∧ (createPrivateChat sC2ex 1 1).1.members =
        [⟨1, 1, 1, Role.owner, 0⟩, ⟨2, 1, 1, Role.member, 0⟩] := by
  exact ⟨rfl, rfl⟩

/-- The fetch Response as unfurlLink consumes it: ok flag, status line and
the body text (response.text() folded into the oracle — a body-read failure
is a fetch error). -/
structure FetchResponse where
  ok : Bool
  status : Nat
  statusText : String
  html : String
deriving DecidableEq, Repr

/-- The parts of `new URL(url)` that unfurlLink reads; protocol includes the
trailing colon as in the WHATWG URL API. -/
structure UrlParts where
  protocol : String
  host : String
deriving DecidableEq, Repr

def strStartsWith (pre s : String) : Bool := pre.data.isPrefixOf s.data

def isQuote (c : Char) : Bool := c = '"' || c.toNat = 39

/-- Case-insensitive literal match consuming a prefix, as the `i` regex flag
gives on literal pattern characters. -/
def stripPrefixCI : List Char → List Char → Option (List Char)
  | [], s => some s
  | _ :: _, [] => none
  | c :: cs, d :: ds => if c.toLower = d.toLower then stripPrefixCI cs ds else none

/-- Consume one character of the `["']` class. -/
def stripQuote : List Char → Option (List Char)
  | [] => none
  | c :: rest => if isQuote c then some rest else none

/-- Greedy backtracking for a character-class star: try consuming k
characters for k from the fuel down to 0, running the continuation on the
rest; the caller passes the maximal class run as fuel, so the longest
consumption is tried first as JS greedy matching does. -/
def starThenAux {α : Type} (cont : List Char → Option α) (s : List Char) : Nat → Option α
  | 0 => cont s
  | k + 1 =>
    match cont (s.drop (k + 1)) with
    | some r => some r
    | none => starThenAux cont s k

/-- Greedy `[^>]*` followed by a continuation. -/
def starNoGt {α : Type} (cont : List Char → Option α) (s : List Char) : Option α :=
  starThenAux cont s (s.takeWhile (fun c => c ≠ '>')).length

/-- One attempt, anchored at the head of `s`, of the meta-tag regex
`<meta[^>]*attr["']val["'][^>]*content=["']([^"']*)["'][^>]*>` with the
case-insensitive flag; returns the captured content characters.  The
capture's `[^"']*` excludes both quote characters, so it is forced to stop
at the closing quote and needs no backtracking. -/
def matchMetaAt (attr val : String) (s : List Char) : Option (List Char) :=
  (stripPrefixCI "<meta".data s).bind (fun s1 =>
    starNoGt (fun s2 =>
      (stripPrefixCI attr.data s2).bind (fun s3 =>
        (stripQuote s3).bind (fun s4 =>
          (stripPrefixCI val.data s4).bind (fun s5 =>
            (stripQuote s5).bind (fun s6 =>
              starNoGt (fun s7 =>
                (stripPrefixCI "content=".data s7).bind (fun s8 =>
                  (stripQuote s8).bind (fun s9 =>
                    (stripQuote (s9.drop (s9.takeWhile (fun c => !(isQuote c))).length)).bind
                      (fun s10 =>
                        starNoGt (fun s11 =>
                          (stripPrefixCI ">".data s11).map
                            (fun _ => s9.takeWhile (fun c => !(isQuote c)))) s10))))
                s6)))))
      s1)

/-- JS regex scanning: try the anchored matcher at each start position from
the left; the first success is the match. -/
def findFirstCapture (m : List Char → Option (List Char)) : List Char → Option (List Char)
  | [] => m []
  | c :: rest =>
    match m (c :: rest) with
    | some r => some r
    | none => findFirstCapture m rest

def ogMeta (attr val html : String) : Option String :=
  (findFirstCapture (matchMetaAt attr val) html.data).map (fun l => String.mk l)

/-- One attempt, anchored at the head, of `<title[^>]*>([^<]*)<\/title>`
(case-insensitive).  Both stars are followed by the very character their
class excludes, so each is forced to its maximal run. -/
def matchTitleAt (s : List Char) : Option (List Char) :=
  (stripPrefixCI "<title".data s).bind (fun s1 =>
    (stripPrefixCI ">".data (s1.drop (s1.takeWhile (fun c => c ≠ '>')).length)).bind (fun s2 =>
      (stripPrefixCI "</title>".data
        (s2.drop (s2.takeWhile (fun c => c ≠ '<')).length)).map
        (fun _ => s2.takeWhile (fun c => c ≠ '<'))))

def titleTag (html : String) : Option String :=
  (findFirstCapture matchTitleAt html.data).map (fun l => String.mk l)

/-- The try-block of unfurlLink (handlers/messages.ts lines 283-349) with
the network fetch and WHATWG URL parsing as oracles: validates the scheme,
fetches, checks response.ok, scrapes Open Graph / standard meta tags, and
resolves a root-relative og:image against the page URL (where `new URL` can
itself throw, a parse error). -/
def unfurlBody (fetch : String → Except String FetchResponse)
    (parseUrl : String → Option UrlParts) (url : String) : Except String Preview :=
  if ¬(strStartsWith "http://" url || strStartsWith "https://" url) then
    Except.error "Invalid URL format"
  else
    match fetch url with
    | Except.error e => Except.error e
    | Except.ok response =>
      if ¬response.ok then
        Except.error ("HTTP " ++ toString response.status ++ ": " ++ response.statusText)
      else
        let html := response.html
        let title : Option String :=
          match ogMeta "property=" "og:title" html with
          | some t => some t
          | none =>
            match titleTag html with
            | some t => some t.trim
            | none => none
        let description : Option String :=
          match ogMeta "property=" "og:description" html with
          | some d => some d
          | none =>
            match ogMeta "name=" "description" html with
            | some d => some d
            | none => none
        match ogMeta "property=" "og:image" html with
        | some imageUrl =>
          if strStartsWith "/" imageUrl then
            match parseUrl url with
            | some urlObj =>
              Except.ok ⟨strOrNull title, strOrNull description,
                strOrNull (some (urlObj.protocol ++ "//" ++ urlObj.host ++ imageUrl)), url⟩
            | none => Except.error "Invalid URL"
          else
            Except.ok ⟨strOrNull title, strOrNull description, strOrNull (some imageUrl), url⟩
        | none =>
          Except.ok ⟨strOrNull title, strOrNull description, strOrNull none, url⟩

/-- unfurlLink from handlers/messages.ts (lines 282-360): the catch-all
around the body returns the null-filled preview echoing the input url. -/
def unfurlLink (fetch : String → Except String FetchResponse)
    (parseUrl : String → Option UrlParts) (url : String) : Preview :=
  match unfurlBody fetch parseUrl url with
  | Except.ok p => p
  | Except.error _ => ⟨none, none, none, url⟩

theorem unfurlBody_ok_url (fetch : String → Except String FetchResponse)
    (parseUrl : String → Option UrlParts) (url : String) (p : Preview)
    (h : unfurlBody fetch parseUrl url = Except.ok p) : p.url = url := by
  unfold unfurlBody at h
  by_cases h1 : (strStartsWith "http://" url || strStartsWith "https://" url) = true
  · simp only [h1, not_true, if_neg, Bool.true_eq_false, not_false_iff, if_false, ite_false,
      reduceIte] at h
    cases hf : fetch url with
    | error e => rw [hf] at h; simp at h
    | ok response =>
      rw [hf] at h
      by_cases h2 : response.ok = true
      · simp only [h2, not_true, reduceIte] at h
        cases hio : ogMeta "property=" "og:image" response.html with
        | some imageUrl =>
          rw [hio] at h
          by_cases h3 : strStartsWith "/" imageUrl = true
          · simp only [h3, reduceIte] at h
            cases hp : parseUrl url with
            | some urlObj =>
              rw [hp] at h
              simp only [Except.ok.injEq] at h
              rw [← h]
            | none => rw [hp] at h; simp at h
          · simp only [h3, Bool.false_eq_true, reduceIte] at h
            simp only [Except.ok.injEq] at h
            rw [← h]
        | none =>
          rw [hio] at h
          simp only [Except.ok.injEq] at h
          rw [← h]
      · simp [Bool.eq_false_iff.mpr h2] at h
  · rw [if_pos (by simp [Bool.eq_false_iff.mpr h1])] at h
    simp at h

/-- Claim C8: unfurlLink never raises — it is a total function of its
oracles; for every input string (syntactically invalid URLs included) the
returned record echoes the input in its url field; and on any failure of
the try-body (scheme validation, fetch error, non-ok response, URL parse
error while resolving a relative image) every field other than url is
null. -/
theorem unfurlLink_spec (fetch : String → Except String FetchResponse)
    (parseUrl : String → Option UrlParts) (url : String) :
    (unfurlLink fetch parseUrl url).url = url
    ∧ (∀ e, unfurlBody fetch parseUrl url = Except.error e →
        unfurlLink fetch parseUrl url = ⟨none, none, none, url⟩)
    ∧ ((strStartsWith "http://" url || strStartsWith "https://" url) = false →
        unfurlLink fetch parseUrl url = ⟨none, none, none, url⟩)
    ∧ (∀ e, (strStartsWith "http://" url || strStartsWith "https://" url) = true →
        fetch url = Except.error e →
        unfurlLink fetch parseUrl url = ⟨none, none, none, url⟩) := by
  refine ⟨?_, ?_, ?_, ?_⟩
  · unfold unfurlLink
    cases hb : unfurlBody fetch parseUrl url with
    | ok p => exact unfurlBody_ok_url fetch parseUrl url p hb
    | error e => rfl
  · intro e h
    unfold unfurlLink
    rw [h]
  · intro h
    unfold unfurlLink unfurlBody
    rw [if_pos (by simp [h])]
  · intro e h1 h2
    unfold unfurlLink unfurlBody
    rw [if_neg (by simp [h1]), h2]

theorem unfurlLink_spec_witness :
    unfurlLink (fun _ => Except.error "network failure") (fun _ => none) "notaurl"
      = ⟨none, none, none, "notaurl"⟩
    ∧ (unfurlLink (fun _ => Except.error "network failure") (fun _ => none) "ftp://x").url
      = "ftp://x" := by
  have h1 := unfurlLink_spec (fun _ => Except.error "network failure") (fun _ => none) "notaurl"
  have h2 := unfurlLink_spec (fun _ => Except.error "network failure") (fun _ => none) "ftp://x"
  exact ⟨h1.2.2.1 (by decide), h2.1⟩

end HackerChat
